import Mathlib

/- Verification of the penpot-mcp server's session-resilient transport layer:
   the in-memory event store (InMemoryEventStore) and the HTTP session
   dispatcher of PenpotMcpServer.setupHttpEndpoints.

   JS strings are modelled as lists of characters (Str); the comparator used
   by the source for event ids (localeCompare) is modelled as code-point
   lexicographic order, and JS Array.prototype.sort (stable in modern
   engines) as a stable sort.  Date.now() and Math.random() are passed
   in explicitly as the arguments now and rand.  JS Map objects are modelled
   as insertion-ordered association lists with the Map.set / Map.has /
   Map.delete semantics. -/

set_option linter.unusedVariables false
set_option maxRecDepth 8192

/-- JS strings, modelled as lists of characters. -/
abbrev Str := List Char

namespace JsMap

/-- JS Map.set: replaces the value in place when the key is present, appends otherwise. -/
def set {β : Type} (l : List (Str × β)) (k : Str) (v : β) : List (Str × β) :=
  if l.any (fun p => p.1 = k) then
    l.map (fun p => if p.1 = k then (k, v) else p)
  else l ++ [(k, v)]

/-- JS Map.has. -/
def hasKey {β : Type} (l : List (Str × β)) (k : Str) : Bool :=
  l.any (fun p => p.1 = k)

/-- The keys of the map, in insertion order. -/
def keys {β : Type} (l : List (Str × β)) : List Str := l.map (fun p => p.1)

/-- A JS Map never holds two entries with the same key; every association
list that models one therefore has pairwise distinct keys. -/
def NodupKeys {β : Type} (l : List (Str × β)) : Prop := (keys l).Nodup

end JsMap

/-- One stored event: the value type of InMemoryEventStore.events. -/
structure Event (α : Type) where
  streamId : Str
  message : α
  timestamp : Nat
deriving DecidableEq, Repr

/-- The events map of InMemoryEventStore (the maxAge and maxEventsPerStream
fields are readonly constants and are modelled as the constants below). -/
structure InMemoryEventStore (α : Type) where
  events : List (Str × Event α) := []
deriving DecidableEq, Repr

namespace InMemoryEventStore

/-- The readonly maxAge field: 1 hour in milliseconds. -/
def maxAge : Nat := 3600000

/-- The readonly maxEventsPerStream field. -/
def maxEventsPerStream : Nat := 1000

/-- generateEventId: streamId ++ "_" ++ Date.now() ++ "_" ++ random suffix. -/
def generateEventId (streamId : Str) (now : Nat) (rand : Str) : Str :=
  streamId ++ '_' :: Nat.toDigits 10 now ++ '_' :: rand

/-- JS String.split(sep) for a one-character separator string. -/
def splitChar (sep : Char) : Str → List Str
  | [] => [[]]
  | c :: rest =>
    if c = sep then [] :: splitChar sep rest
    else
      match splitChar sep rest with
      | [] => [[c]]
      | s :: ss => (c :: s) :: ss

/-- getStreamIdFromEventId: parts[0] of eventId.split("_") when the split is
nonempty, "" otherwise. -/
def getStreamIdFromEventId (eventId : Str) : Str :=
  let parts := splitChar '_' eventId
  if parts.length > 0 then parts.headD [] else []

/-- The entries belonging to one stream, in map (arrival) order. -/
def streamEvents {α : Type} (s : Str) (l : List (Str × Event α)) : List (Str × Event α) :=
  l.filter (fun p => p.2.streamId = s)

/-- The age pass of cleanupOldEvents keeps exactly the entries with
now - timestamp ≤ maxAge. -/
def liveEvents {α : Type} (l : List (Str × Event α)) (now : Nat) : List (Str × Event α) :=
  l.filter (fun p => now - p.2.timestamp ≤ maxAge)

/-- One step of the per-stream counting loop of cleanupOldEvents
(streamEventCounts.set(id, (streamEventCounts.get(id) || 0) + 1)). -/
def bump (acc : List (Str × Nat)) (s : Str) : List (Str × Nat) :=
  JsMap.set acc s ((((acc.find? (fun p => p.1 = s)).map (fun p => p.2)).getD 0) + 1)

/-- streamEventCounts of cleanupOldEvents: per-stream entry counts of the
events surviving the age pass, keyed by stream, in first-occurrence order. -/
def streamCounts {α : Type} (l : List (Str × Event α)) : List (Str × Nat) :=
  l.foldl (fun acc p => bump acc p.2.streamId) []

/-- The sort (a, b) => a[1].timestamp - b[1].timestamp used by the capping
loop; JS Array.prototype.sort is stable, as is insertionSort. -/
def sortByTimestamp {α : Type} (l : List (Str × Event α)) : List (Str × Event α) :=
  l.insertionSort (fun a b => a.2.timestamp ≤ b.2.timestamp)

/-- One iteration of the count-capping loop of cleanupOldEvents: when a
stream's count exceeds the cap, delete its count - cap oldest-timestamp
entries from the map. -/
def evictStream {α : Type} (evs : List (Str × Event α)) (entry : Str × Nat) :
    List (Str × Event α) :=
  if entry.2 > maxEventsPerStream then
    let removed := ((sortByTimestamp (streamEvents entry.1 evs)).take
      (entry.2 - maxEventsPerStream)).map (fun p => p.1)
    evs.filter (fun p => ¬ p.1 ∈ removed)
  else evs

/-- cleanupOldEvents: the age pass followed by the per-stream capping loop. -/
def cleanupOldEvents {α : Type} (st : InMemoryEventStore α) (now : Nat) :
    InMemoryEventStore α :=
  let live := liveEvents st.events now
  ⟨(streamCounts live).foldl evictStream live⟩

/-- storeEvent: generate the id, insert the event, run cleanup; returns the
generated id together with the updated store. -/
def storeEvent {α : Type} (st : InMemoryEventStore α) (streamId : Str) (message : α)
    (now : Nat) (rand : Str) : Str × InMemoryEventStore α :=
  let eventId := generateEventId streamId now rand
  let st2 : InMemoryEventStore α := ⟨JsMap.set st.events eventId ⟨streamId, message, now⟩⟩
  (eventId, cleanupOldEvents st2 now)

/-- getEventCount. -/
def getEventCount {α : Type} (st : InMemoryEventStore α) : Nat := st.events.length

/-- The sort (a, b) => a[0].localeCompare(b[0]) of replayEventsAfter,
modelled as a stable sort by lexicographic id order. -/
def sortByEventId {α : Type} (l : List (Str × Event α)) : List (Str × Event α) :=
  l.insertionSort (fun a b => a.1 ≤ b.1)

/-- The delivery loop of replayEventsAfter: skip foreign streams, flip the
flag at the last-seen id, send everything afterwards.  Returns the
(eventId, message) pairs passed to send, in call order. -/
def replayLoop {α : Type} (l : List (Str × Event α)) (streamId lastEventId : Str)
    (foundLastEvent : Bool) : List (Str × α) :=
  match l with
  | [] => []
  | (eventId, ev) :: rest =>
    if ev.streamId ≠ streamId then replayLoop rest streamId lastEventId foundLastEvent
    else if eventId = lastEventId then replayLoop rest streamId lastEventId true
    else if foundLastEvent then
      (eventId, ev.message) :: replayLoop rest streamId lastEventId foundLastEvent
    else replayLoop rest streamId lastEventId foundLastEvent

/-- replayEventsAfter: returns the resolved stream id ("" when replay is not
possible) and the (eventId, message) pairs delivered to send, in order. -/
def replayEventsAfter {α : Type} (st : InMemoryEventStore α) (lastEventId : Str) :
    Str × List (Str × α) :=
  if lastEventId = [] ∨ ¬ JsMap.hasKey st.events lastEventId then ([], [])
  else
    let streamId := getStreamIdFromEventId lastEventId
    if streamId = [] then ([], [])
    else (streamId, replayLoop (sortByEventId st.events) streamId lastEventId false)

/-- The delivery loop restricted to one stream's entries: the flag logic of
replayLoop once entries of other streams have been dropped. -/
def afterFlag {α : Type} (l : List (Str × Event α)) (lastEventId : Str) (found : Bool) :
    List (Str × α) :=
  match l with
  | [] => []
  | (eventId, ev) :: rest =>
    if eventId = lastEventId then afterFlag rest lastEventId true
    else if found then (eventId, ev.message) :: afterFlag rest lastEventId found
    else afterFlag rest lastEventId found

/-- The count recorded for a stream in a counts map (get(...) || 0). -/
def countOf (acc : List (Str × Nat)) (t : Str) : Nat :=
  ((acc.find? (fun p => p.1 = t)).map (fun p => p.2)).getD 0

/-- Effect of the capping loop on one stream's entry list: when over the
cap, drop the entries whose ids make up the oldest-timestamp surplus. -/
def capStream {α : Type} (es : List (Str × Event α)) : List (Str × Event α) :=
  if es.length > maxEventsPerStream then
    es.filter (fun p =>
      ¬ p.1 ∈ ((sortByTimestamp es).take (es.length - maxEventsPerStream)).map (fun q => q.1))
  else es

/-- The map immediately after storeEvent's insertion, before cleanup: the
candidate entries the eviction pass works over. -/
def postInsert {α : Type} (st : InMemoryEventStore α) (s : Str)
    (msg : α) (now : Nat) (rand : Str) : List (Str × Event α) :=
  JsMap.set st.events (generateEventId s now rand) ⟨s, msg, now⟩

end InMemoryEventStore

/-- Store exhibiting the replay-order defect: both events of stream "s" were
issued ids with the same Date.now() value 5, with random suffixes zz and aa
in arrival order, so the second arrival sorts first lexicographically. -/
def replayCexStore : InMemoryEventStore Nat :=
  ⟨[("s_5_zz".toList, ⟨"s".toList, 10, 5⟩), ("s_5_aa".toList, ⟨"s".toList, 20, 5⟩)]⟩

/-- Ids of the stream-"a" events of bigStore; the lengths 12, 13, ... make
them pairwise distinct. -/
def bigStoreAId (i : Nat) : Str := "a_3600000_".toList ++ List.replicate (i + 1) 'r'

/-- The hour-old stream-"b" entry of bigStore. -/
def bigStoreBEvent : Str × Event Nat := ("b_0_x".toList, ⟨"b".toList, 0, 0⟩)

/-- Store holding one hour-old event of stream "b" and 1000 events of
stream "a" stored at time 3600000, all within the retention window at time
3600005. -/
def bigStore : InMemoryEventStore Nat :=
  ⟨bigStoreBEvent ::
    (List.range 1000).map (fun i => (bigStoreAId i, ⟨"a".toList, i, 3600000⟩))⟩

namespace Dispatch

/-- JSON values, used to state the exact response bodies of the handlers. -/
inductive Json where
  | null : Json
  | bool (b : Bool) : Json
  | num (n : Int) : Json
  | str (s : String) : Json
  | arr (elems : List Json) : Json
  | obj (fields : List (String × Json)) : Json

/-- An HTTP response body: a JSON envelope, plain text, or the opaque
response produced by the protocol engine. -/
inductive RespBody where
  | json (j : Json) : RespBody
  | text (s : String) : RespBody
  | engine : RespBody

/-- One HTTP response written to res. -/
structure HttpResponse where
  status : Nat
  body : RespBody

/-- The opaque response the protocol engine writes on a fault-free
handleRequest / handlePostMessage / SSE connect. -/
def engineResponse : HttpResponse := ⟨200, .engine⟩

/-- The session registry of PenpotMcpServer: the key sets of
this.transports.streamable, this.eventStores and this.transports.sse. -/
structure RegistryState where
  streamable : List String := []
  eventStores : List String := []
  sse : List String := []
deriving DecidableEq, Repr

/-- Object-property / Map.set insertion on a key list. -/
def addKey (l : List String) (k : String) : List String :=
  if l.contains k then l else l ++ [k]

/-- The delete operator / Map.delete on a key list. -/
def removeKey (l : List String) (k : String) : List String :=
  l.filter (fun x => ¬ x = k)

/-- Modelled from the spec: transport.handleRequest, handlePostMessage and
server.connect belong to the external protocol engine (the MCP SDK).  Per
the spec's collaborator boundary, a fault-free call writes exactly one
response to res; a faulting call throws after having written either zero
responses or one. -/
inductive Engine where
  | ok
  | faultBeforeSend
  | faultAfterSend
deriving DecidableEq, Repr

/-- The responses a handleRequest-style engine call itself writes. -/
def engineResponses (eng : Engine) : List HttpResponse :=
  match eng with
  | .ok => [engineResponse]
  | .faultBeforeSend => []
  | .faultAfterSend => [engineResponse]

/-- True when the engine call throws. -/
def engineFaults (eng : Engine) : Bool :=
  match eng with
  | .ok => false
  | .faultBeforeSend => true
  | .faultAfterSend => true

/-- A try/catch around engine sends: the catch writes its error response
only when the handler has not yet sent anything (the res.headersSent
guard). -/
def withCatch (sent : List HttpResponse) (faulted : Bool) (errResp : HttpResponse) :
    List HttpResponse :=
  match sent, faulted with
  | [], true => [errResp]
  | s, _ => s

/-- The body sent by the "no valid session" reject branch of POST /mcp. -/
def noValidSessionBody : Json :=
  .obj [("jsonrpc", .str "2.0"),
        ("error", .obj [("code", .num (-32000)),
                        ("message", .str "Bad Request: No valid session ID provided")]),
        ("id", .null)]

/-- The body sent by the catch block of POST /mcp. -/
def internalErrorBody : Json :=
  .obj [("jsonrpc", .str "2.0"),
        ("error", .obj [("code", .num (-32603)),
                        ("message", .str "Internal server error")]),
        ("id", .null)]

/-- The body of the DELETE /mcp branch with no mcp-session-id header. -/
def noSessionIdBody : Json :=
  .obj [("jsonrpc", .str "2.0"),
        ("error", .obj [("code", .num (-32000)),
                        ("message", .str "Bad Request: No session ID provided")])]

/-- The body of the DELETE /mcp branch with an unknown session id. -/
def sessionNotFoundBody : Json :=
  .obj [("jsonrpc", .str "2.0"),
        ("error", .obj [("code", .num (-32001)),
                        ("message", .str "Session not found")])]

/-- The success body of DELETE /mcp. -/
def terminationOkBody : Json :=
  .obj [("jsonrpc", .str "2.0"), ("result", .obj [("terminated", .bool true)])]

/-- The catch body of DELETE /mcp. -/
def terminationFaultBody : Json :=
  .obj [("jsonrpc", .str "2.0"),
        ("error", .obj [("code", .num (-32603)),
                        ("message", .str "Internal server error during session termination")])]

/-- Result of one POST /mcp request: the responses written to res in order,
the updated registry, and whether the handler constructed a fresh transport
and event store (the new-session branch). -/
structure PostResult where
  responses : List HttpResponse
  state : RegistryState
  createdSession : Bool

/-- The POST /mcp handler.  sessionId is the mcp-session-id header, isInit
is isInitializeRequest(req.body), newSid the randomUUID a new session would
be given, eng the behavior of the engine call on the chosen branch.  The
new-session branch registers the session in onsessioninitialized, which the
SDK fires inside handleRequest before the response is written; a fault
before any send is modelled as faulting before that registration. -/
def postMcp (st : RegistryState) (sessionId : Option String) (isInit : Bool)
    (eng : Engine) (newSid : String) : PostResult :=
  match sessionId with
  | some sid =>
    if st.streamable.contains sid then
      ⟨withCatch (engineResponses eng) (engineFaults eng) ⟨500, .json internalErrorBody⟩,
        st, false⟩
    else ⟨[⟨400, .json noValidSessionBody⟩], st, false⟩
  | none =>
    if isInit then
      let registered : RegistryState :=
        {st with streamable := addKey st.streamable newSid,
                 eventStores := addKey st.eventStores newSid}
      ⟨withCatch (engineResponses eng) (engineFaults eng) ⟨500, .json internalErrorBody⟩,
        if eng = .faultBeforeSend then st else registered, true⟩
    else ⟨[⟨400, .json noValidSessionBody⟩], st, false⟩

/-- The onclose handler installed on every streamable transport: deletes the
session from both maps when it is still registered, otherwise does nothing. -/
def oncloseEffect (st : RegistryState) (sid : String) : RegistryState :=
  if st.streamable.contains sid then
    {st with streamable := removeKey st.streamable sid,
             eventStores := removeKey st.eventStores sid}
  else st

/-- Result of one DELETE /mcp request. -/
structure DeleteResult where
  responses : List HttpResponse
  state : RegistryState

/-- The DELETE /mcp handler.  closeFaults models transport.onclose()
throwing inside the try block (in which case the two delete statements are
skipped and the catch block answers). -/
def deleteMcp (st : RegistryState) (sessionId : Option String) (closeFaults : Bool) :
    DeleteResult :=
  match sessionId with
  | none => ⟨[⟨400, .json noSessionIdBody⟩], st⟩
  | some sid =>
    if st.streamable.contains sid then
      if closeFaults then ⟨[⟨500, .json terminationFaultBody⟩], st⟩
      else
        let st1 := oncloseEffect st sid
        let st2 : RegistryState :=
          {st1 with streamable := removeKey st1.streamable sid,
                    eventStores := removeKey st1.eventStores sid}
        ⟨[⟨200, .json terminationOkBody⟩], st2⟩
    else ⟨[⟨404, .json sessionNotFoundBody⟩], st⟩

/-- The GET /mcp handler (no try/catch in the source: an engine fault before
any send leaves the request unanswered). -/
def getMcp (st : RegistryState) (sessionId : Option String) (eng : Engine) :
    List HttpResponse :=
  match sessionId with
  | none => [⟨400, .text "Session ID required"⟩]
  | some sid =>
    if st.streamable.contains sid then engineResponses eng
    else [⟨400, .text "Session ID required"⟩]

/-- Result of one POST /messages request; delivered records the sse stream
handlePostMessage was invoked on, if any. -/
structure MessagesResult where
  responses : List HttpResponse
  delivered : Option String
  state : RegistryState

/-- The POST /messages handler (legacy transport; no try/catch in the
source). -/
def postMessages (st : RegistryState) (sessionId : String) (eng : Engine) :
    MessagesResult :=
  if st.sse.contains sessionId then ⟨engineResponses eng, some sessionId, st⟩
  else ⟨[⟨400, .text "No transport found for sessionId"⟩], none, st⟩

/-- The GET /sse handler: registers a fresh SSE transport under its own
session id, then connects (no try/catch in the source). -/
def getSse (st : RegistryState) (newSid : String) (eng : Engine) :
    List HttpResponse × RegistryState :=
  ((engineResponses eng), {st with sse := addKey st.sse newSid})

/-- The registry mutations the handlers perform between request steps. -/
inductive Step where
  | initSession (sid : String)
  | transportClosed (sid : String)
  | deleteRequest (sid : Option String) (closeFaults : Bool)
  | sseOpen (sid : String)
  | sseClosed (sid : String)
deriving DecidableEq, Repr

/-- Effect of one step on the registry. -/
def applyStep (st : RegistryState) : Step → RegistryState
  | .initSession sid =>
    {st with streamable := addKey st.streamable sid,
             eventStores := addKey st.eventStores sid}
  | .transportClosed sid => oncloseEffect st sid
  | .deleteRequest sid f => (deleteMcp st sid f).state
  | .sseOpen sid => {st with sse := addKey st.sse sid}
  | .sseClosed sid => {st with sse := removeKey st.sse sid}

/-- Run a sequence of steps from a starting registry. -/
def runSteps (st : RegistryState) (steps : List Step) : RegistryState :=
  steps.foldl applyStep st

/-- The registry the server starts with: all maps empty. -/
def initialRegistry : RegistryState := ⟨[], [], []⟩

end Dispatch

open InMemoryEventStore Dispatch

/-- C3: replayEventsAfter on an empty lastEventId, on an id that was never
stored, or on an id whose owning stream cannot be parsed from it returns the
empty/absent stream result and invokes deliver zero times. -/
theorem C3_unknown_marker (α : Type) (st : InMemoryEventStore α) (lastEventId : Str)
    (h : lastEventId = [] ∨ JsMap.hasKey st.events lastEventId = false ∨
      getStreamIdFromEventId lastEventId = []) :
    replayEventsAfter st lastEventId = ([], []) := by
  by_cases h1 : lastEventId = [] ∨ ¬ JsMap.hasKey st.events lastEventId
  · simp only [replayEventsAfter]
    rw [if_pos h1]
  · have hkey : JsMap.hasKey st.events lastEventId = true := by
      by_contra hk
      exact h1 (Or.inr (by simpa using hk))
    have hne : ¬ lastEventId = [] := fun he => h1 (Or.inl he)
    have hp : getStreamIdFromEventId lastEventId = [] := by
      rcases h with h | h | h
      · exact absurd h hne
      · rw [h] at hkey; cases hkey
      · exact h
    simp only [replayEventsAfter]
    rw [if_neg h1]
    simp [hp]

/-- Witness for C3: a marker that was never stored delivers nothing. -/
theorem C3_unknown_marker_witness :
    (("b_1_x".toList : Str) = [] ∨
      JsMap.hasKey [("a_1_x".toList, (⟨"a".toList, 5, 1⟩ : Event Nat))] "b_1_x".toList = false ∨
      getStreamIdFromEventId "b_1_x".toList = []) ∧
    replayEventsAfter (⟨[("a_1_x".toList, ⟨"a".toList, 5, 1⟩)]⟩ : InMemoryEventStore Nat)
      "b_1_x".toList = ([], []) :=
  ⟨Or.inr (Or.inl (by decide)),
    C3_unknown_marker Nat ⟨[("a_1_x".toList, ⟨"a".toList, 5, 1⟩)]⟩ "b_1_x".toList
      (Or.inr (Or.inl (by decide)))⟩

/-- C5: POST /mcp creates a fresh session (new transport and event store) if
and only if no mcp-session-id header is supplied and the payload is an
initialization request; a request with an unknown session id, or without a
session id and without an initialization payload, is answered HTTP 400 with
the exact JSON-RPC -32000 body and creates no session. -/
theorem C5_post_mcp_creation (st : RegistryState) (sessionId : Option String)
    (isInit : Bool) (eng : Engine) (newSid : String) :
    ((postMcp st sessionId isInit eng newSid).createdSession = true ↔
      (sessionId = none ∧ isInit = true)) ∧
    ((∃ sid, sessionId = some sid ∧ sid ∉ st.streamable) ∨
        (sessionId = none ∧ isInit = false) →
      postMcp st sessionId isInit eng newSid =
        ⟨[⟨400, .json noValidSessionBody⟩], st, false⟩) := by
  constructor
  · cases sessionId with
    | none => cases isInit <;> simp [postMcp]
    | some sid => by_cases hc : sid ∈ st.streamable <;> simp [postMcp, hc]
  · rintro (⟨sid, rfl, hc⟩ | ⟨rfl, rfl⟩)
    · simp [postMcp, hc]
    · simp [postMcp]

/-- Witness for C5: a session id absent from the registry is rejected with
the -32000 body even for an initialization payload, and creates nothing. -/
theorem C5_post_mcp_creation_witness :
    postMcp ⟨["s"], ["s"], []⟩ (some "t") true .ok "u" =
      ⟨[⟨400, .json noValidSessionBody⟩], ⟨["s"], ["s"], []⟩, false⟩ :=
  (C5_post_mcp_creation ⟨["s"], ["s"], []⟩ (some "t") true .ok "u").2
    (Or.inl ⟨"t", rfl, by decide⟩)

/-- C6: DELETE /mcp answers 400 without a session id; 404 with the -32001
Session-not-found body, leaving the registry untouched and throwing
nothing, for an unknown (including already terminated) id; 200 with
terminated:true for a registered id whose closure succeeds, removing the
session's transport and event store, so that a repeated DELETE is a 404;
and 500 with the -32603 body when closure faults. -/
theorem C6_delete_mcp (st : RegistryState) (sid : String) (f : Bool) :
    (deleteMcp st none f = ⟨[⟨400, .json noSessionIdBody⟩], st⟩)
  ∧ (sid ∉ st.streamable →
      deleteMcp st (some sid) f = ⟨[⟨404, .json sessionNotFoundBody⟩], st⟩)
  ∧ (sid ∈ st.streamable →
      (deleteMcp st (some sid) false).responses = [⟨200, .json terminationOkBody⟩]
      ∧ sid ∉ (deleteMcp st (some sid) false).state.streamable
      ∧ sid ∉ (deleteMcp st (some sid) false).state.eventStores
      ∧ deleteMcp (deleteMcp st (some sid) false).state (some sid) f =
          ⟨[⟨404, .json sessionNotFoundBody⟩], (deleteMcp st (some sid) false).state⟩
      ∧ deleteMcp st (some sid) true = ⟨[⟨500, .json terminationFaultBody⟩], st⟩) := by
  have hrem : ∀ (l : List String) (k : String), k ∉ removeKey l k := by
    intro l k hk
    simp [removeKey, List.mem_filter] at hk
  refine ⟨rfl, ?_, ?_⟩
  · intro h; simp [deleteMcp, h]
  · intro h
    refine ⟨by simp [deleteMcp, h], ?_, ?_, ?_, by simp [deleteMcp, h]⟩
    · simp [deleteMcp, h, oncloseEffect, hrem]
    · simp [deleteMcp, h, oncloseEffect, hrem]
    · have h404 : sid ∉ (deleteMcp st (some sid) false).state.streamable := by
        simp [deleteMcp, h, oncloseEffect, hrem]
      generalize hS : (deleteMcp st (some sid) false).state = S at h404 ⊢
      simp [deleteMcp, h404]

/-- Witness for C6 on a concrete one-session registry: termination
succeeds, removes the session, and a second DELETE reports 404. -/
theorem C6_delete_mcp_witness :
    (deleteMcp ⟨["s"], ["s"], []⟩ (some "s") false).responses =
        [⟨200, .json terminationOkBody⟩]
    ∧ (deleteMcp (deleteMcp ⟨["s"], ["s"], []⟩ (some "s") false).state (some "s") false) =
        ⟨[⟨404, .json sessionNotFoundBody⟩],
          (deleteMcp ⟨["s"], ["s"], []⟩ (some "s") false).state⟩ :=
  ⟨((C6_delete_mcp ⟨["s"], ["s"], []⟩ "s" false).2.2 (by decide)).1,
    ((C6_delete_mcp ⟨["s"], ["s"], []⟩ "s" false).2.2 (by decide)).2.2.2.1⟩

/-- C8: POST /messages with a sessionId query parameter matching a
registered legacy SSE transport hands the message to that stream; otherwise
it answers HTTP 400 with a plain-text body and changes no registry state. -/
theorem C8_post_messages (st : RegistryState) (sid : String) (eng : Engine) :
    (sid ∈ st.sse →
      (postMessages st sid eng).delivered = some sid
      ∧ (postMessages st sid eng).state = st)
  ∧ (sid ∉ st.sse →
      postMessages st sid eng =
        ⟨[⟨400, .text "No transport found for sessionId"⟩], none, st⟩) := by
  constructor <;> intro h <;> simp [postMessages, h]

/-- Witness for C8 at a concrete registry with one SSE stream. -/
theorem C8_post_messages_witness :
    ((postMessages ⟨[], [], ["s"]⟩ "s" .ok).delivered = some "s"
      ∧ (postMessages ⟨[], [], ["s"]⟩ "s" .ok).state = ⟨[], [], ["s"]⟩)
    ∧ postMessages ⟨[], [], ["s"]⟩ "t" .ok =
        ⟨[⟨400, .text "No transport found for sessionId"⟩], none, ⟨[], [], ["s"]⟩⟩ :=
  ⟨(C8_post_messages ⟨[], [], ["s"]⟩ "s" .ok).1 (by decide),
    (C8_post_messages ⟨[], [], ["s"]⟩ "t" .ok).2 (by decide)⟩

/-- Each handler step keeps the streamable transport keys and the event
store keys identical. -/
theorem Dispatch.applyStep_sync (st : RegistryState) (s : Step)
    (h : st.streamable = st.eventStores) :
    (applyStep st s).streamable = (applyStep st s).eventStores := by
  cases s with
  | initSession sid => simp [applyStep, h]
  | transportClosed sid =>
    simp only [applyStep, oncloseEffect]
    split <;> simp [h]
  | deleteRequest sid f =>
    cases sid with
    | none => simpa [applyStep, deleteMcp] using h
    | some x =>
      simp only [applyStep, deleteMcp]
      split
      · split
        · simpa using h
        · simp only [oncloseEffect]
          split <;> simp [h]
      · simpa using h
  | sseOpen sid => simpa [applyStep] using h
  | sseClosed sid => simpa [applyStep] using h

/-- C10: starting from the empty registry, after any sequence of handler
steps (session initialization, transport close, DELETE /mcp, SSE
open/close) a session id is a key of the streamable transport map exactly
when it is a key of the event-store map: the two maps are registered and
removed together. -/
theorem C10_registry_sync (steps : List Step) :
    (runSteps initialRegistry steps).streamable =
      (runSteps initialRegistry steps).eventStores := by
  have main : ∀ (l : List Step) (st : RegistryState),
      st.streamable = st.eventStores →
      (runSteps st l).streamable = (runSteps st l).eventStores := by
    intro l
    induction l with
    | nil => intro st h; exact h
    | cons a t ih =>
      intro st h
      have := ih (applyStep st a) (Dispatch.applyStep_sync st a h)
      simpa [runSteps] using this
  exact main steps initialRegistry rfl

/-- C7 counterexample: GET /mcp has no try/catch, so an engine fault before
anything was sent leaves the request with zero responses, not exactly one. -/
theorem C7_counterexample :
    (getMcp ⟨["s"], ["s"], []⟩ (some "s") .faultBeforeSend).length = 0
    ∧ (getMcp ⟨["s"], ["s"], []⟩ (some "s") .faultBeforeSend).length ≠ 1 := by
  constructor <;> simp [getMcp, engineResponses]

/-- C7 amended: POST /mcp and DELETE /mcp write exactly one HTTP response on
every path, including engine or closure faults (the catch writes its -32603
envelope only when nothing has been sent yet); GET /mcp, POST /messages and
GET /sse write exactly one response on every fault-free path, and never more
than one response on any path. -/
theorem C7_single_response (st : RegistryState) (sessionId : Option String) (isInit : Bool)
    (eng : Engine) (newSid sid : String) (f : Bool) :
    (postMcp st sessionId isInit eng newSid).responses.length = 1
  ∧ (deleteMcp st sessionId f).responses.length = 1
  ∧ (getMcp st sessionId .ok).length = 1
  ∧ (postMessages st sid .ok).responses.length = 1
  ∧ (getSse st sid .ok).1.length = 1
  ∧ (getMcp st sessionId eng).length ≤ 1
  ∧ (postMessages st sid eng).responses.length ≤ 1
  ∧ (getSse st sid eng).1.length ≤ 1 := by
  have hw : ∀ e, (withCatch (engineResponses e) (engineFaults e)
      (⟨500, .json internalErrorBody⟩ : HttpResponse)).length = 1 := by
    intro e; cases e <;> rfl
  have hle : ∀ e, (engineResponses e).length ≤ 1 := by
    intro e; cases e <;> simp [engineResponses]
  refine ⟨?_, ?_, ?_, ?_, ?_, ?_, ?_, ?_⟩
  · cases sessionId with
    | none => cases isInit <;> simp [postMcp, hw]
    | some x => by_cases hc : x ∈ st.streamable <;> simp [postMcp, hc, hw]
  · cases sessionId with
    | none => rfl
    | some x =>
      by_cases hc : x ∈ st.streamable
      · cases f <;> simp [deleteMcp, hc]
      · simp [deleteMcp, hc]
  · cases sessionId with
    | none => rfl
    | some x => by_cases hc : x ∈ st.streamable <;> simp [getMcp, hc, engineResponses]
  · by_cases hc : sid ∈ st.sse <;> simp [postMessages, hc, engineResponses]
  · simp [getSse, engineResponses]
  · cases sessionId with
    | none => simp [getMcp]
    | some x => by_cases hc : x ∈ st.streamable <;> simp [getMcp, hc, hle]
  · by_cases hc : sid ∈ st.sse <;> simp [postMessages, hc, hle]
  · simp [getSse, hle]

/-- splitChar always yields at least one (possibly empty) component. -/
theorem InMemoryEventStore.splitChar_ne_nil (sep : Char) (l : Str) :
    splitChar sep l ≠ [] := by
  cases l with
  | nil => simp [splitChar]
  | cons c rest =>
    simp only [splitChar]
    split
    · simp
    · split <;> simp

/-- The first component of splitChar is the longest separator-free front. -/
theorem InMemoryEventStore.splitChar_headD (sep : Char) (l : Str) :
    (splitChar sep l).headD [] = l.takeWhile (fun c => c ≠ sep) := by
  induction l with
  | nil => simp [splitChar]
  | cons c rest ih =>
    by_cases hc : c = sep
    · subst hc; simp [splitChar, List.takeWhile_cons]
    · simp only [splitChar, if_neg hc]
      rcases hsp : splitChar sep rest with _ | ⟨s, ss⟩
      · exact absurd hsp (splitChar_ne_nil sep rest)
      · rw [hsp] at ih
        simp only [List.headD_cons] at ih
        simp [List.takeWhile_cons, hc, ih]

/-- getStreamIdFromEventId takes the id up to its first underscore. -/
theorem InMemoryEventStore.getStreamId_eq_takeWhile (eventId : Str) :
    getStreamIdFromEventId eventId = eventId.takeWhile (fun c => c ≠ '_') := by
  unfold getStreamIdFromEventId
  have h2 : 0 < (splitChar '_' eventId).length :=
    List.length_pos.mpr (splitChar_ne_nil _ _)
  simp only [gt_iff_lt, h2, if_pos]
  exact splitChar_headD _ _

/-- C9: generateEventId output begins with the stream id followed by an
underscore, and getStreamIdFromEventId recovers the portion of the id before
its first underscore: the round trip returns the owning stream exactly when
the stream id contains no underscore, and a proper (hence different) front
of it otherwise. -/
theorem C9_event_id_roundtrip (streamId : Str) (now : Nat) (rand : Str) :
    (∃ rest, generateEventId streamId now rand = streamId ++ '_' :: rest)
  ∧ ('_' ∉ streamId →
      getStreamIdFromEventId (generateEventId streamId now rand) = streamId)
  ∧ ('_' ∈ streamId →
      getStreamIdFromEventId (generateEventId streamId now rand) =
        streamId.takeWhile (fun c => c ≠ '_')
      ∧ getStreamIdFromEventId (generateEventId streamId now rand) ≠ streamId) := by
  have hgen : generateEventId streamId now rand =
      streamId ++ '_' :: (Nat.toDigits 10 now ++ '_' :: rand) := by
    simp [generateEventId]
  refine ⟨⟨Nat.toDigits 10 now ++ '_' :: rand, hgen⟩, ?_, ?_⟩
  · intro hnot
    have hall : streamId.takeWhile (fun c => c ≠ '_') = streamId :=
      List.takeWhile_eq_self_iff.mpr (fun x hx => by
        simp only [ne_eq, decide_eq_true_eq]
        exact fun he => hnot (he ▸ hx))
    rw [getStreamId_eq_takeWhile, hgen, List.takeWhile_append, hall, if_pos rfl]
    have hstop : ('_' :: (Nat.toDigits 10 now ++ '_' :: rand)).takeWhile
        (fun c => c ≠ '_') = [] := by
      simp [List.takeWhile_cons]
    rw [hstop, List.append_nil]
  · intro hmem
    have hlt : ¬ (streamId.takeWhile (fun c => c ≠ '_')).length = streamId.length := by
      intro hlen
      have hsub : List.Sublist (streamId.takeWhile (fun c => c ≠ '_')) streamId :=
        List.takeWhile_sublist _
      have hself := hsub.eq_of_length hlen
      have h2 := List.takeWhile_eq_self_iff.mp hself '_' hmem
      simp at h2
    have heq : getStreamIdFromEventId (generateEventId streamId now rand) =
        streamId.takeWhile (fun c => c ≠ '_') := by
      rw [getStreamId_eq_takeWhile, hgen, List.takeWhile_append, if_neg hlt]
    refine ⟨heq, ?_⟩
    rw [heq]
    intro hself
    have h2 := List.takeWhile_eq_self_iff.mp hself '_' hmem
    simp at h2

/-- Witness for C9 at stream ids abc (no underscore) and a_b (underscore). -/
theorem C9_event_id_roundtrip_witness :
    getStreamIdFromEventId (generateEventId "abc".toList 7 "r".toList) = "abc".toList
    ∧ getStreamIdFromEventId (generateEventId "a_b".toList 7 "r".toList) = "a".toList
    ∧ getStreamIdFromEventId (generateEventId "a_b".toList 7 "r".toList) ≠ "a_b".toList :=
  ⟨(C9_event_id_roundtrip "abc".toList 7 "r".toList).2.1 (by decide),
    ((C9_event_id_roundtrip "a_b".toList 7 "r".toList).2.2 (by decide)).1.trans (by decide),
    ((C9_event_id_roundtrip "a_b".toList 7 "r".toList).2.2 (by decide)).2⟩

/-- The capping fold only removes entries, never adds them. -/
theorem InMemoryEventStore.mem_foldl_evictStream {α : Type} (counts : List (Str × Nat))
    (evs : List (Str × Event α)) (p : Str × Event α)
    (h : p ∈ counts.foldl evictStream evs) : p ∈ evs := by
  induction counts generalizing evs with
  | nil => simpa using h
  | cons c rest ih =>
    have h1 : p ∈ evictStream evs c := ih (evictStream evs c) (by simpa using h)
    unfold evictStream at h1
    split at h1
    · exact List.mem_of_mem_filter h1
    · exact h1

/-- Every entry retained by cleanupOldEvents survives the age pass, hence
is within the retention window. -/
theorem InMemoryEventStore.mem_cleanup_live {α : Type} (st : InMemoryEventStore α)
    (now : Nat) (p : Str × Event α) (h : p ∈ (cleanupOldEvents st now).events) :
    p ∈ liveEvents st.events now ∧ now - p.2.timestamp ≤ maxAge := by
  have h1 : p ∈ liveEvents st.events now := mem_foldl_evictStream _ _ p h
  refine ⟨h1, ?_⟩
  have h2 := List.of_mem_filter h1
  simpa using h2

/-- Entries delivered by replayLoop come from the scanned list. -/
theorem InMemoryEventStore.replayLoop_subset {α : Type} (l : List (Str × Event α))
    (s lastId : Str) (b : Bool) (q : Str × α) (h : q ∈ replayLoop l s lastId b) :
    ∃ e : Event α, (q.1, e) ∈ l ∧ e.message = q.2 := by
  induction l generalizing b with
  | nil => simp [replayLoop] at h
  | cons a rest ih =>
    obtain ⟨eid, ev⟩ := a
    simp only [replayLoop] at h
    split at h
    · obtain ⟨e, he, hm⟩ := ih b h
      exact ⟨e, List.mem_cons_of_mem _ he, hm⟩
    · split at h
      · obtain ⟨e, he, hm⟩ := ih true h
        exact ⟨e, List.mem_cons_of_mem _ he, hm⟩
      · split at h
        · rcases List.mem_cons.mp h with h | h
          · subst h
            exact ⟨ev, List.mem_cons_self _ _, rfl⟩
          · obtain ⟨e, he, hm⟩ := ih b h
            exact ⟨e, List.mem_cons_of_mem _ he, hm⟩
        · obtain ⟨e, he, hm⟩ := ih b h
          exact ⟨e, List.mem_cons_of_mem _ he, hm⟩

/-- Pairs delivered by replayEventsAfter correspond to stored entries. -/
theorem InMemoryEventStore.replay_delivers_stored {α : Type} (st : InMemoryEventStore α)
    (lid : Str) (q : Str × α) (h : q ∈ (replayEventsAfter st lid).2) :
    ∃ e : Event α, (q.1, e) ∈ st.events ∧ e.message = q.2 := by
  unfold replayEventsAfter at h
  split at h
  · simp at h
  · by_cases hp : getStreamIdFromEventId lid = []
    · simp [hp] at h
    · simp only [if_neg hp] at h
      obtain ⟨e, he, hm⟩ := replayLoop_subset _ _ _ _ q h
      exact ⟨e, (List.perm_insertionSort _ st.events).mem_iff.mp he, hm⟩

/-- C4: at each storeEvent call every event whose age exceeds the retention
window is removed: the aged entry is absent afterwards, every retained
entry is within the window, and any subsequent replayEventsAfter delivers
only (id, message) pairs of retained entries, so the aged event is absent
from every subsequent replay. -/
theorem C4_age_eviction {α : Type} (st : InMemoryEventStore α) (s : Str) (msg : α)
    (now : Nat) (rand : Str) (eid : Str) (ev : Event α)
    (hold : now - ev.timestamp > maxAge) :
    ((eid, ev) ∉ ((storeEvent st s msg now rand).2).events)
  ∧ (∀ p ∈ ((storeEvent st s msg now rand).2).events, now - p.2.timestamp ≤ maxAge)
  ∧ (∀ lid q, q ∈ (replayEventsAfter (storeEvent st s msg now rand).2 lid).2 →
      ∃ e : Event α, (q.1, e) ∈ ((storeEvent st s msg now rand).2).events
        ∧ e.message = q.2) := by
  refine ⟨?_, ?_, ?_⟩
  · intro hmem
    have h2 := (mem_cleanup_live _ now _ hmem).2
    dsimp only at h2
    omega
  · intro p hp
    exact (mem_cleanup_live _ now _ hp).2
  · intro lid q hq
    exact replay_delivers_stored _ lid q hq

/-- Witness for C4: an hour-old stream-b entry is evicted by a store to
stream a at time 3600001. -/
theorem C4_age_eviction_witness :
    ((3600001 : Nat) - 0 > maxAge) ∧
    ("b_0_x".toList, (⟨"b".toList, 9, 0⟩ : Event Nat)) ∉
      ((storeEvent (⟨[("b_0_x".toList, ⟨"b".toList, 9, 0⟩)]⟩ : InMemoryEventStore Nat)
        "a".toList 7 3600001 "r".toList).2).events :=
  ⟨by decide,
    (C4_age_eviction ⟨[("b_0_x".toList, ⟨"b".toList, 9, 0⟩)]⟩ "a".toList 7 3600001
      "r".toList "b_0_x".toList ⟨"b".toList, 9, 0⟩ (by decide)).1⟩

/-- The delivery loop equals the one-stream flag loop on the entries of the
requested stream: entries of other streams are skipped without effect. -/
theorem InMemoryEventStore.replayLoop_eq_afterFlag {α : Type} (l : List (Str × Event α))
    (s lastId : Str) (b : Bool) :
    replayLoop l s lastId b = afterFlag (streamEvents s l) lastId b := by
  induction l generalizing b with
  | nil => rfl
  | cons a rest ih =>
    obtain ⟨eid, ev⟩ := a
    by_cases hstream : ev.streamId = s
    · by_cases heq : eid = lastId
      · simp [replayLoop, streamEvents, List.filter_cons, afterFlag, hstream, heq, ih]
      · cases b <;>
          simp [replayLoop, streamEvents, List.filter_cons, afterFlag, hstream, heq, ih]
    · simp [replayLoop, streamEvents, List.filter_cons, hstream, ih]

/-- Once the flag is set, the loop delivers every remaining entry whose id
is not the marker. -/
theorem InMemoryEventStore.afterFlag_true_all {α : Type} (es : List (Str × Event α))
    (m : Str) (h : ∀ p ∈ es, p.1 ≠ m) :
    afterFlag es m true = es.map (fun p => (p.1, p.2.message)) := by
  induction es with
  | nil => rfl
  | cons a t ih =>
    obtain ⟨eid, ev⟩ := a
    have hne : eid ≠ m := h (eid, ev) (List.mem_cons_self _ _)
    simp only [afterFlag, if_neg hne, if_pos trivial, List.map_cons]
    exact congrArg _ (ih (fun p hp => h p (List.mem_cons_of_mem _ hp)))

/-- Before the marker is seen, the loop delivers nothing. -/
theorem InMemoryEventStore.afterFlag_skip {α : Type} (es1 rest : List (Str × Event α))
    (m : Str) (h1 : ∀ p ∈ es1, p.1 ≠ m) :
    afterFlag (es1 ++ rest) m false = afterFlag rest m false := by
  induction es1 with
  | nil => rfl
  | cons a t ih =>
    obtain ⟨eid, ev⟩ := a
    have hne : eid ≠ m := h1 (eid, ev) (List.mem_cons_self _ _)
    simp only [List.cons_append, afterFlag, if_neg hne]
    exact ih (fun p hp => h1 p (List.mem_cons_of_mem _ hp))

/-- The flag loop on a list that holds the marker entry once delivers
exactly the entries after it. -/
theorem InMemoryEventStore.afterFlag_split {α : Type} (es1 es2 : List (Str × Event α))
    (m : Str) (e : Event α)
    (h1 : ∀ p ∈ es1, p.1 ≠ m) (h2 : ∀ p ∈ es2, p.1 ≠ m) :
    afterFlag (es1 ++ (m, e) :: es2) m false = es2.map (fun p => (p.1, p.2.message)) := by
  rw [afterFlag_skip es1 _ m h1]
  simp only [afterFlag, if_pos rfl]
  exact afterFlag_true_all es2 m h2

/-- Sorting the whole map by id and then restricting to one stream yields
that stream's entries, provided their ids were already strictly increasing
in arrival order. -/
theorem InMemoryEventStore.sorted_filter_eq {α : Type} (events es : List (Str × Event α))
    (s : Str) (hes : streamEvents s events = es)
    (hsorted : List.Pairwise (fun a b : Str × Event α => a.1 < b.1) es) :
    streamEvents s (sortByEventId events) = es := by
  haveI : IsTotal (Str × Event α) (fun a b => a.1 ≤ b.1) :=
    ⟨fun a b => le_total a.1 b.1⟩
  haveI : IsTrans (Str × Event α) (fun a b => a.1 ≤ b.1) :=
    ⟨fun a b c hab hbc => le_trans hab hbc⟩
  haveI : IsAntisymm (Str × Event α) (fun a b : Str × Event α => a.1 < b.1) :=
    ⟨fun a b hab hba => absurd hba (lt_asymm hab)⟩
  have hperm : List.Perm (streamEvents s (sortByEventId events)) es := by
    rw [← hes]
    exact List.Perm.filter _ (List.perm_insertionSort _ events)
  have hsorted1 : List.Pairwise (fun a b : Str × Event α => a.1 ≤ b.1)
      (streamEvents s (sortByEventId events)) :=
    List.Pairwise.sublist (List.filter_sublist _) (List.sorted_insertionSort _ events)
  have hkeysnodup : ((streamEvents s (sortByEventId events)).map (fun p => p.1)).Nodup := by
    have h1 : List.Pairwise (fun a b : Str × Event α => a.1 ≠ b.1) es :=
      hsorted.imp (fun {a b} hab => ne_of_lt hab)
    have hnes : (es.map (fun p => p.1)).Nodup := by
      simpa [List.Nodup, List.pairwise_map] using h1
    exact ((hperm.map (fun p => p.1)).symm).nodup hnes
  have hsorted2 : List.Pairwise (fun a b : Str × Event α => a.1 < b.1)
      (streamEvents s (sortByEventId events)) := by
    have hne : List.Pairwise (fun a b : Str × Event α => a.1 ≠ b.1)
        (streamEvents s (sortByEventId events)) := by
      simpa [List.Nodup, List.pairwise_map] using hkeysnodup
    exact (hsorted1.and hne).imp (fun {a b} hab => lt_of_le_of_ne hab.1 hab.2)
  exact List.eq_of_perm_of_sorted hperm hsorted2 hsorted

/-- C1 counterexample: stream "s" stores e1 = s_5_zz then e2 = s_5_aa, ids
generateEventId can produce for consecutive arrivals (same Date.now() value
5, random suffixes zz then aa).  The claim requires replayEventsAfter(e1.id)
to deliver e2; the code delivers nothing, because it scans in lexicographic
id order and e2's id sorts before the marker. -/
theorem C1_counterexample :
    JsMap.keys replayCexStore.events =
      [generateEventId "s".toList 5 "zz".toList, generateEventId "s".toList 5 "aa".toList]
    ∧ streamEvents "s".toList replayCexStore.events = replayCexStore.events
    ∧ (replayEventsAfter replayCexStore "s_5_zz".toList).2 = []
    ∧ (replayEventsAfter replayCexStore "s_5_zz".toList).2 ≠
        [("s_5_aa".toList, 20)] :=
  ⟨by decide, by decide, by decide, by decide⟩

/-- C1 amended: for a stream s whose stored events e1..en (in arrival
order) have strictly increasing ids in lexicographic order, and whose
marker id parses back to s, replayEventsAfter(ek.id) returns s and delivers
exactly e(k+1)..en, in that order, with no events of other streams.
Without the increasing-id hypothesis the delivered set follows id order,
not arrival order (see the counterexample). -/
theorem C1_replay_correctness {α : Type} (st : InMemoryEventStore α) (s : Str)
    (es : List (Str × Event α)) (k : Nat)
    (hes : streamEvents s st.events = es)
    (hsorted : List.Pairwise (fun a b : Str × Event α => a.1 < b.1) es)
    (hk : k < es.length)
    (hs : s ≠ [])
    (hparse : getStreamIdFromEventId (es.get ⟨k, hk⟩).1 = s) :
    replayEventsAfter st (es.get ⟨k, hk⟩).1 =
      (s, (es.drop (k + 1)).map (fun p => (p.1, p.2.message))) := by
  have hmem_es : es.get ⟨k, hk⟩ ∈ es := List.get_mem es k hk
  have hmem_events : es.get ⟨k, hk⟩ ∈ st.events := by
    have h0 : es.get ⟨k, hk⟩ ∈ streamEvents s st.events := hes ▸ hmem_es
    exact List.mem_of_mem_filter h0
  have hhas : JsMap.hasKey st.events (es.get ⟨k, hk⟩).1 = true := by
    unfold JsMap.hasKey
    rw [List.any_eq_true]
    exact ⟨es.get ⟨k, hk⟩, hmem_events, by simp⟩
  have hm_ne : (es.get ⟨k, hk⟩).1 ≠ [] := by
    intro h0
    rw [h0] at hparse
    rw [show getStreamIdFromEventId ([] : Str) = [] from rfl] at hparse
    exact hs hparse.symm
  have hcond : ¬ ((es.get ⟨k, hk⟩).1 = [] ∨
      ¬ JsMap.hasKey st.events (es.get ⟨k, hk⟩).1 = true) := by
    rintro (h0 | h0)
    · exact hm_ne h0
    · exact h0 hhas
  unfold replayEventsAfter
  rw [if_neg hcond]
  simp only [hparse]
  rw [if_neg hs]
  refine congrArg (Prod.mk s) ?_
  rw [replayLoop_eq_afterFlag, sorted_filter_eq st.events es s hes hsorted]
  have hsplit : es =
      es.take k ++ ((es.get ⟨k, hk⟩).1, (es.get ⟨k, hk⟩).2) :: es.drop (k + 1) := by
    conv_lhs => rw [← List.take_append_drop k es]
    congr 1
    rw [List.drop_eq_getElem_cons hk]
    congr 1
  have hpair := hsorted
  rw [hsplit, List.pairwise_append, List.pairwise_cons] at hpair
  obtain ⟨hp1, ⟨hafter, hp2⟩, hcross⟩ := hpair
  have h1 : ∀ p ∈ es.take k, p.1 ≠ (es.get ⟨k, hk⟩).1 := fun p hp =>
    ne_of_lt (hcross p hp _ (List.mem_cons_self _ _))
  have h2 : ∀ p ∈ es.drop (k + 1), p.1 ≠ (es.get ⟨k, hk⟩).1 := fun p hp =>
    (ne_of_lt (hafter p hp)).symm
  generalize hgm : es.get ⟨k, hk⟩ = m at h1 h2 hsplit ⊢
  conv_lhs => rw [hsplit]
  exact afterFlag_split (es.take k) (es.drop (k + 1)) m.1 m.2 h1 h2

/-- Witness for C1 on a three-event store: replay after the first event of
stream s delivers exactly the later event of s and skips stream t. -/
theorem C1_replay_correctness_witness :
    replayEventsAfter
      (⟨[("s_1_aa".toList, ⟨"s".toList, 10, 1⟩), ("t_1_cc".toList, ⟨"t".toList, 30, 1⟩),
         ("s_2_bb".toList, ⟨"s".toList, 20, 2⟩)]⟩ : InMemoryEventStore Nat)
      "s_1_aa".toList = ("s".toList, [("s_2_bb".toList, 20)]) := by
  have h := C1_replay_correctness
    (⟨[("s_1_aa".toList, ⟨"s".toList, 10, 1⟩), ("t_1_cc".toList, ⟨"t".toList, 30, 1⟩),
       ("s_2_bb".toList, ⟨"s".toList, 20, 2⟩)]⟩ : InMemoryEventStore Nat)
    "s".toList
    [("s_1_aa".toList, ⟨"s".toList, 10, 1⟩), ("s_2_bb".toList, ⟨"s".toList, 20, 2⟩)]
    0 (by decide) (by decide) (by decide) (by decide) (by decide)
  simpa using h

namespace JsMap

/-- Inserting a key absent from the map appends the entry. -/
theorem set_of_fresh {β : Type} (l : List (Str × β)) (k : Str) (v : β)
    (h : ∀ p ∈ l, p.1 ≠ k) : set l k v = l ++ [(k, v)] := by
  have hc : ¬ (l.any (fun p => p.1 = k) = true) := by
    intro hany
    rw [List.any_eq_true] at hany
    obtain ⟨p, hp, hpk⟩ := hany
    exact h p hp (by simpa using hpk)
  unfold set
  rw [if_neg hc]

/-- Map.set finds its own key afterwards, bound to the new value. -/
theorem find?_set_self {β : Type} (l : List (Str × β)) (k : Str) (v : β) :
    (set l k v).find? (fun p => p.1 = k) = some (k, v) := by
  induction l with
  | nil => simp [set, List.find?]
  | cons a t ih =>
    by_cases ha : a.1 = k
    · have hany : ((a :: t).any (fun p => p.1 = k)) = true := by
        simp [List.any_cons, ha]
      unfold set
      rw [if_pos hany]
      simp only [List.map_cons, if_pos ha]
      exact List.find?_cons_of_pos _ (by simp)
    · by_cases ht : (t.any (fun p => p.1 = k)) = true
      · have hany : ((a :: t).any (fun p => p.1 = k)) = true := by
          simp [List.any_cons, ht]
        unfold set
        rw [if_pos hany]
        simp only [List.map_cons, if_neg ha]
        rw [List.find?_cons_of_neg _ (by simpa using ha)]
        have ih2 := ih
        unfold set at ih2
        rw [if_pos ht] at ih2
        exact ih2
      · have hc : ¬ (((a :: t).any (fun p => p.1 = k)) = true) := by
          simp only [List.any_cons, Bool.or_eq_true, not_or]
          exact ⟨fun h => ha (of_decide_eq_true h), ht⟩
        unfold set
        rw [if_neg hc, List.cons_append]
        rw [List.find?_cons_of_neg _ (by simpa using ha)]
        have ih2 := ih
        unfold set at ih2
        rw [if_neg ht] at ih2
        exact ih2

/-- Replacing the value under key k leaves lookups of other keys unchanged. -/
theorem find?_mapReplace_ne {β : Type} (l : List (Str × β)) (k t : Str) (v : β)
    (hne : t ≠ k) :
    (l.map (fun p => if p.1 = k then (k, v) else p)).find? (fun p => p.1 = t) =
      l.find? (fun p => p.1 = t) := by
  induction l with
  | nil => rfl
  | cons a rest ih =>
    simp only [List.map_cons]
    by_cases ha : a.1 = k
    · rw [if_pos ha]
      rw [List.find?_cons_of_neg _ (by simpa using fun h => hne h.symm),
        List.find?_cons_of_neg _ (by simpa using fun h => hne (h.symm.trans ha))]
      exact ih
    · rw [if_neg ha]
      by_cases hat : a.1 = t
      · rw [List.find?_cons_of_pos _ (by simpa using hat),
          List.find?_cons_of_pos _ (by simpa using hat)]
      · rw [List.find?_cons_of_neg _ (by simpa using hat),
          List.find?_cons_of_neg _ (by simpa using hat)]
        exact ih

/-- Appending an entry under key k leaves lookups of other keys unchanged. -/
theorem find?_append_ne {β : Type} (l : List (Str × β)) (k t : Str) (v : β)
    (hne : t ≠ k) :
    (l ++ [(k, v)]).find? (fun p => p.1 = t) = l.find? (fun p => p.1 = t) := by
  induction l with
  | nil =>
    simp only [List.nil_append, List.find?_nil]
    rw [List.find?_cons_of_neg _ (by simpa using fun h => hne h.symm), List.find?_nil]
  | cons a rest ih =>
    by_cases hat : a.1 = t
    · rw [List.cons_append, List.find?_cons_of_pos _ (by simpa using hat),
        List.find?_cons_of_pos _ (by simpa using hat)]
    · rw [List.cons_append, List.find?_cons_of_neg _ (by simpa using hat),
        List.find?_cons_of_neg _ (by simpa using hat)]
      exact ih

/-- Map.set leaves lookups of other keys unchanged. -/
theorem find?_set_ne {β : Type} (l : List (Str × β)) (k t : Str) (v : β) (hne : t ≠ k) :
    (set l k v).find? (fun p => p.1 = t) = l.find? (fun p => p.1 = t) := by
  unfold set
  split
  · exact find?_mapReplace_ne l k t v hne
  · exact find?_append_ne l k t v hne

/-- The keys of a map are unchanged by replacement and extended by a fresh
insertion. -/
theorem keys_set {β : Type} (l : List (Str × β)) (k : Str) (v : β) :
    keys (set l k v) = if (l.any (fun p => p.1 = k)) = true then keys l
      else keys l ++ [k] := by
  unfold set
  split
  · simp only [keys, List.map_map]
    refine List.map_congr_left (fun p hp => ?_)
    by_cases hpk : p.1 = k
    · simp [Function.comp, hpk]
    · simp [Function.comp, hpk]
  · simp [keys]

/-- Map.set preserves distinctness of keys. -/
theorem nodupKeys_set {β : Type} (l : List (Str × β)) (k : Str) (v : β)
    (h : NodupKeys l) : NodupKeys (set l k v) := by
  unfold NodupKeys at h ⊢
  rw [keys_set]
  split
  · exact h
  · rename_i hany
    rw [List.nodup_append]
    refine ⟨h, List.nodup_singleton k, ?_⟩
    intro x hx hk1
    rw [List.mem_singleton] at hk1
    subst hk1
    unfold keys at hx
    rw [List.mem_map] at hx
    obtain ⟨p, hp, hpk⟩ := hx
    exact hany (by rw [List.any_eq_true]; exact ⟨p, hp, by simpa using hpk⟩)

end JsMap

/-- With distinct keys, find? returns exactly the entry a key belongs to. -/
theorem JsMap.find?_eq_of_mem_nodupKeys {β : Type} (acc : List (Str × β)) (t : Str)
    (c : β) (hnodup : JsMap.NodupKeys acc) (hmem : (t, c) ∈ acc) :
    acc.find? (fun p => p.1 = t) = some (t, c) := by
  induction acc with
  | nil => cases hmem
  | cons a rest ih =>
    have hnodup' : JsMap.NodupKeys rest := by
      unfold JsMap.NodupKeys JsMap.keys at hnodup ⊢
      rw [List.map_cons, List.nodup_cons] at hnodup
      exact hnodup.2
    rcases List.mem_cons.mp hmem with rfl | hmem'
    · exact List.find?_cons_of_pos _ (by simp)
    · have ha : a.1 ≠ t := by
        intro h
        have ht : t ∈ JsMap.keys rest := List.mem_map.mpr ⟨(t, c), hmem', rfl⟩
        unfold JsMap.NodupKeys JsMap.keys at hnodup
        rw [List.map_cons, List.nodup_cons] at hnodup
        exact hnodup.1 (h ▸ ht)
      rw [List.find?_cons_of_neg _ (by simpa using ha)]
      exact ih hnodup' hmem'

/-- With distinct keys, a key determines its entry's value. -/
theorem JsMap.eq_of_mem_nodupKeys {β : Type} (l : List (Str × β)) (k : Str) (v w : β)
    (hnodup : JsMap.NodupKeys l) (hv : (k, v) ∈ l) (hw : (k, w) ∈ l) : v = w := by
  have h1 := JsMap.find?_eq_of_mem_nodupKeys l k v hnodup hv
  have h2 := JsMap.find?_eq_of_mem_nodupKeys l k w hnodup hw
  rw [h1] at h2
  simpa using h2

namespace InMemoryEventStore

/-- The count a Map.set records. -/
theorem countOf_set (acc : List (Str × Nat)) (k t : Str) (v : Nat) :
    countOf (JsMap.set acc k v) t = if t = k then v else countOf acc t := by
  unfold countOf
  by_cases ht : t = k
  · subst ht
    rw [JsMap.find?_set_self, if_pos rfl]
    rfl
  · rw [JsMap.find?_set_ne acc k t v ht, if_neg ht]

/-- The count a bump records. -/
theorem countOf_bump (acc : List (Str × Nat)) (s t : Str) :
    countOf (bump acc s) t = if t = s then countOf acc s + 1 else countOf acc t := by
  unfold bump
  rw [countOf_set]
  rfl

/-- The counting fold adds each stream's entry count to the accumulator. -/
theorem countOf_foldl_bump {α : Type} (l : List (Str × Event α)) :
    ∀ (acc : List (Str × Nat)) (t : Str),
      countOf (l.foldl (fun a p => bump a p.2.streamId) acc) t =
        countOf acc t + (streamEvents t l).length := by
  induction l with
  | nil => intro acc t; simp [streamEvents]
  | cons a rest ih =>
    intro acc t
    rw [List.foldl_cons, ih, countOf_bump]
    unfold streamEvents
    rw [List.filter_cons]
    by_cases hs : t = a.2.streamId
    · rw [if_pos hs,
        if_pos (show decide (a.2.streamId = t) = true from decide_eq_true hs.symm),
        List.length_cons, hs]
      omega
    · rw [if_neg hs, if_neg (fun h => hs (of_decide_eq_true h).symm)]

/-- streamCounts records exactly each stream's entry count. -/
theorem countOf_streamCounts {α : Type} (l : List (Str × Event α)) (t : Str) :
    countOf (streamCounts l) t = (streamEvents t l).length := by
  unfold streamCounts
  rw [countOf_foldl_bump]
  simp [countOf]

/-- Key membership after a bump. -/
theorem mem_keys_bump (acc : List (Str × Nat)) (s t : Str) :
    t ∈ JsMap.keys (bump acc s) ↔ t ∈ JsMap.keys acc ∨ t = s := by
  unfold bump
  rw [JsMap.keys_set]
  split
  · rename_i hany
    constructor
    · exact Or.inl
    · rintro (h | rfl)
      · exact h
      · rw [List.any_eq_true] at hany
        obtain ⟨p, hp, hps⟩ := hany
        have hp1 : p.1 = t := of_decide_eq_true hps
        exact hp1 ▸ List.mem_map.mpr ⟨p, hp, rfl⟩
  · rw [List.mem_append, List.mem_singleton]

/-- bump preserves distinctness of the count map's keys. -/
theorem nodup_keys_bump (acc : List (Str × Nat)) (s : Str)
    (h : JsMap.NodupKeys acc) : JsMap.NodupKeys (bump acc s) :=
  JsMap.nodupKeys_set _ _ _ h

/-- The count map always has distinct keys. -/
theorem nodup_keys_streamCounts {α : Type} (l : List (Str × Event α)) :
    JsMap.NodupKeys (streamCounts l) := by
  unfold streamCounts
  have main : ∀ acc, JsMap.NodupKeys acc →
      JsMap.NodupKeys (l.foldl (fun a p => bump a p.2.streamId) acc) := by
    induction l with
    | nil => intro acc h; simpa using h
    | cons a rest ih =>
      intro acc h
      rw [List.foldl_cons]
      exact ih _ (nodup_keys_bump acc _ h)
  exact main [] (by simp [JsMap.NodupKeys, JsMap.keys])

/-- A stream is a key of the count map exactly when it has entries. -/
theorem mem_keys_streamCounts {α : Type} (l : List (Str × Event α)) (t : Str) :
    t ∈ JsMap.keys (streamCounts l) ↔ streamEvents t l ≠ [] := by
  unfold streamCounts
  have main : ∀ acc, t ∈ JsMap.keys (l.foldl (fun a p => bump a p.2.streamId) acc) ↔
      t ∈ JsMap.keys acc ∨ streamEvents t l ≠ [] := by
    induction l with
    | nil => intro acc; simp [streamEvents]
    | cons a rest ih =>
      intro acc
      rw [List.foldl_cons, ih, mem_keys_bump]
      unfold streamEvents
      rw [List.filter_cons]
      by_cases hs : a.2.streamId = t
      · rw [if_pos (by simpa using hs)]
        constructor
        · intro h0
          rcases h0 with (h0 | rfl) | h0
          · exact Or.inl h0
          · exact Or.inr (by simp)
          · exact Or.inr (by simp)
        · intro h0
          rcases h0 with h0 | h0
          · exact Or.inl (Or.inl h0)
          · exact Or.inl (Or.inr hs.symm)
      · rw [if_neg (by simpa using hs)]
        constructor
        · intro h0
          rcases h0 with (h0 | rfl) | h0
          · exact Or.inl h0
          · exact absurd rfl hs
          · exact Or.inr h0
        · intro h0
          rcases h0 with h0 | h0
          · exact Or.inl (Or.inl h0)
          · exact Or.inr h0
  rw [main []]
  simp [JsMap.keys]

/-- Entries of the count map record their stream's exact count. -/
theorem streamCounts_val {α : Type} (l : List (Str × Event α)) (t : Str) (c : Nat)
    (hmem : (t, c) ∈ streamCounts l) : c = (streamEvents t l).length := by
  have h1 := JsMap.find?_eq_of_mem_nodupKeys _ t c (nodup_keys_streamCounts l) hmem
  have h2 := countOf_streamCounts l t
  unfold countOf at h2
  rw [h1] at h2
  simpa using h2

/-- Restricting to a stream commutes with any other filter of the map. -/
theorem streamEvents_filter_comm {α : Type} (t : Str) (l : List (Str × Event α))
    (P : Str × Event α → Bool) :
    streamEvents t (l.filter P) = (streamEvents t l).filter P := by
  unfold streamEvents
  rw [List.filter_filter, List.filter_filter]
  congr 1
  funext p
  rw [Bool.and_comm]

/-- Filtering preserves distinctness of keys. -/
theorem nodupKeys_filter {β : Type} (l : List (Str × β)) (P : Str × β → Bool)
    (h : JsMap.NodupKeys l) : JsMap.NodupKeys (l.filter P) := by
  unfold JsMap.NodupKeys JsMap.keys at h ⊢
  exact List.Nodup.sublist (List.Sublist.map _ (List.filter_sublist l)) h

/-- The capping step for one stream leaves every other stream's entries
untouched (keys are unique, so deleted ids belong only to that stream). -/
theorem streamEvents_evictStream_ne {α : Type} (evs : List (Str × Event α))
    (entry : Str × Nat) (t : Str) (hnodup : JsMap.NodupKeys evs) (hne : t ≠ entry.1) :
    streamEvents t (evictStream evs entry) = streamEvents t evs := by
  unfold evictStream
  split
  · rw [streamEvents_filter_comm]
    apply List.filter_eq_self.mpr
    intro p hp
    unfold streamEvents at hp
    have hpev : p ∈ evs := List.mem_of_mem_filter hp
    have hpt0 := List.of_mem_filter hp
    have hpt : p.2.streamId = t := of_decide_eq_true hpt0
    rw [decide_eq_true_eq]
    intro hmem
    rw [List.mem_map] at hmem
    obtain ⟨q, hq, hq1⟩ := hmem
    have hqsort : q ∈ sortByTimestamp (streamEvents entry.1 evs) :=
      List.mem_of_mem_take hq
    have hqes : q ∈ streamEvents entry.1 evs :=
      (List.perm_insertionSort _ _).mem_iff.mp hqsort
    unfold streamEvents at hqes
    have hqev : q ∈ evs := List.mem_of_mem_filter hqes
    have hqsid0 := List.of_mem_filter hqes
    have hqsid : q.2.streamId = entry.1 := of_decide_eq_true hqsid0
    have hvals : p.2 = q.2 := by
      refine JsMap.eq_of_mem_nodupKeys evs p.1 p.2 q.2 hnodup ?_ ?_
      · exact (Prod.mk.eta) ▸ hpev
      · have h0 : (q.1, q.2) ∈ evs := (Prod.mk.eta) ▸ hqev
        rw [hq1] at h0
        exact h0
    rw [← hvals] at hqsid
    exact hne (hpt ▸ hqsid)
  · rfl

/-- The capping step on its own stream acts as capStream. -/
theorem streamEvents_evictStream_self {α : Type} (evs : List (Str × Event α))
    (entry : Str × Nat) (hc : entry.2 = (streamEvents entry.1 evs).length) :
    streamEvents entry.1 (evictStream evs entry) =
      capStream (streamEvents entry.1 evs) := by
  unfold evictStream capStream
  rw [hc]
  split
  · exact streamEvents_filter_comm _ _ _
  · rfl

/-- Deleting a set of keys that covers a front segment and misses the back
segment keeps exactly the back segment. -/
theorem filter_keys_split {β : Type} (l1 l2 : List (Str × β)) (R : List Str)
    (h1 : ∀ q ∈ l1, q.1 ∈ R) (h2 : ∀ p ∈ l2, ¬ p.1 ∈ R) :
    (l1 ++ l2).filter (fun p => ¬ p.1 ∈ R) = l2 := by
  rw [List.filter_append]
  rw [List.filter_eq_nil_iff.mpr (fun q hq => by simpa using h1 q hq),
    List.filter_eq_self.mpr (fun p hp => by simpa using h2 p hp), List.nil_append]

/-- When a stream's entry list with distinct ids exceeds the cap, capStream
keeps exactly the cap's worth of entries, all from the list, and every
dropped entry is at least as old as every kept one. -/
theorem capStream_spec {α : Type} (es : List (Str × Event α))
    (hnodup : JsMap.NodupKeys es) (hgt : es.length > maxEventsPerStream) :
    (capStream es).length = maxEventsPerStream
    ∧ (∀ p ∈ capStream es, p ∈ es)
    ∧ (∀ q ∈ es, q ∉ capStream es → ∀ p ∈ capStream es,
        q.2.timestamp ≤ p.2.timestamp) := by
  haveI : IsTotal (Str × Event α) (fun a b => a.2.timestamp ≤ b.2.timestamp) :=
    ⟨fun a b => le_total a.2.timestamp b.2.timestamp⟩
  haveI : IsTrans (Str × Event α) (fun a b => a.2.timestamp ≤ b.2.timestamp) :=
    ⟨fun a b c hab hbc => le_trans hab hbc⟩
  have hnodup' : (es.map (fun p => p.1)).Nodup := hnodup
  have hperm : List.Perm (sortByTimestamp es) es := List.perm_insertionSort _ es
  have hlenB : (sortByTimestamp es).length = es.length := hperm.length_eq
  have hkeysB : ((sortByTimestamp es).map (fun p => p.1)).Nodup :=
    ((hperm.map (fun p => p.1)).symm).nodup hnodup'
  have hcap : capStream es = es.filter (fun p =>
      ¬ p.1 ∈ ((sortByTimestamp es).take (es.length - maxEventsPerStream)).map
        (fun q => q.1)) := by
    unfold capStream
    rw [if_pos hgt]
  have hmemtake : ∀ q ∈ es, q.1 ∈ ((sortByTimestamp es).take
      (es.length - maxEventsPerStream)).map (fun q => q.1) →
      q ∈ (sortByTimestamp es).take (es.length - maxEventsPerStream) := by
    intro q hq hmem
    rw [List.mem_map] at hmem
    obtain ⟨q', hq', hq'1⟩ := hmem
    have hq'B : q' ∈ sortByTimestamp es := List.mem_of_mem_take hq'
    have hqB : q ∈ sortByTimestamp es := hperm.mem_iff.mpr hq
    have hvals : q'.2 = q.2 := by
      refine JsMap.eq_of_mem_nodupKeys (sortByTimestamp es) q.1 q'.2 q.2 hkeysB ?_ ?_
      · have h0 : (q'.1, q'.2) ∈ sortByTimestamp es := (Prod.mk.eta) ▸ hq'B
        rw [hq'1] at h0
        exact h0
      · exact (Prod.mk.eta) ▸ hqB
    have hqq : q' = q := Prod.ext hq'1 hvals
    exact hqq ▸ hq'
  have hall : ∀ q ∈ (sortByTimestamp es).take (es.length - maxEventsPerStream),
      q.1 ∈ ((sortByTimestamp es).take (es.length - maxEventsPerStream)).map
        (fun q => q.1) := fun q hq => List.mem_map.mpr ⟨q, hq, rfl⟩
  have hdisj : ∀ p ∈ (sortByTimestamp es).drop (es.length - maxEventsPerStream),
      ¬ p.1 ∈ ((sortByTimestamp es).take (es.length - maxEventsPerStream)).map
        (fun q => q.1) := by
    intro p hp hmem
    have hk := hkeysB
    have hkeys2 : ((sortByTimestamp es).map (fun p => p.1)) =
        ((sortByTimestamp es).take (es.length - maxEventsPerStream)).map
          (fun p => p.1) ++
        ((sortByTimestamp es).drop (es.length - maxEventsPerStream)).map
          (fun p => p.1) := by
      rw [← List.map_append, List.take_append_drop]
    rw [hkeys2, List.nodup_append] at hk
    exact hk.2.2 hmem (List.mem_map.mpr ⟨p, hp, rfl⟩)
  have hfilterB := filter_keys_split
    ((sortByTimestamp es).take (es.length - maxEventsPerStream))
    ((sortByTimestamp es).drop (es.length - maxEventsPerStream))
    (((sortByTimestamp es).take (es.length - maxEventsPerStream)).map (fun q => q.1))
    hall hdisj
  rw [List.take_append_drop] at hfilterB
  have hpermfilter : List.Perm (capStream es)
      ((sortByTimestamp es).drop (es.length - maxEventsPerStream)) := by
    rw [hcap, ← hfilterB]
    exact (hperm.filter _).symm
  refine ⟨?_, ?_, ?_⟩
  · rw [hpermfilter.length_eq, List.length_drop, hlenB]
    omega
  · intro p hp
    rw [hcap] at hp
    exact List.mem_of_mem_filter hp
  · intro q hq hqnot p hp
    have hqR : q.1 ∈ ((sortByTimestamp es).take (es.length - maxEventsPerStream)).map
        (fun q => q.1) := by
      by_contra hqR
      refine hqnot ?_
      rw [hcap, List.mem_filter]
      exact ⟨hq, by simpa using hqR⟩
    have hqtake : q ∈ (sortByTimestamp es).take (es.length - maxEventsPerStream) :=
      hmemtake q hq hqR
    have hpdrop : p ∈ (sortByTimestamp es).drop (es.length - maxEventsPerStream) := by
      have hpB : p ∈ sortByTimestamp es := by
        rw [hcap] at hp
        exact hperm.mem_iff.mpr (List.mem_of_mem_filter hp)
      have hpR : ¬ p.1 ∈ ((sortByTimestamp es).take
          (es.length - maxEventsPerStream)).map (fun q => q.1) := by
        rw [hcap] at hp
        have h0 := List.of_mem_filter hp
        simpa using h0
      rcases List.mem_append.mp ((List.take_append_drop
          (es.length - maxEventsPerStream) (sortByTimestamp es)) ▸ hpB) with h0 | h0
      · exact absurd (List.mem_map.mpr ⟨p, h0, rfl⟩) hpR
      · exact h0
    have hsortedB : List.Pairwise (fun a b : Str × Event α =>
        a.2.timestamp ≤ b.2.timestamp) (sortByTimestamp es) :=
      List.sorted_insertionSort _ es
    have hpair := hsortedB
    rw [← List.take_append_drop (es.length - maxEventsPerStream) (sortByTimestamp es),
      List.pairwise_append] at hpair
    exact hpair.2.2 q hqtake p hpdrop

/-- capStream does nothing to a stream within the cap. -/
theorem capStream_of_le {α : Type} (es : List (Str × Event α))
    (h : es.length ≤ maxEventsPerStream) : capStream es = es := by
  unfold capStream
  rw [if_neg (by omega)]

/-- The capping loop, run over a duplicate-free counts map whose entries
record exact stream sizes, acts on each stream independently as capStream
and leaves unlisted streams alone. -/
theorem foldl_evictStream_spec {α : Type} (counts : List (Str × Nat)) :
    ∀ (evs : List (Str × Event α)), JsMap.NodupKeys evs → (JsMap.keys counts).Nodup →
      (∀ pc ∈ counts, pc.2 = (streamEvents pc.1 evs).length) →
      ∀ t, streamEvents t (counts.foldl evictStream evs) =
        if t ∈ JsMap.keys counts then capStream (streamEvents t evs)
        else streamEvents t evs := by
  induction counts with
  | nil => intro evs _ _ _ t; simp [JsMap.keys]
  | cons c0 rest ih =>
    intro evs hnodup hcnodup hcons t
    rw [List.foldl_cons]
    have hnodup' : JsMap.NodupKeys (evictStream evs c0) := by
      unfold evictStream
      split
      · exact nodupKeys_filter _ _ hnodup
      · exact hnodup
    have hcnodup' : (JsMap.keys rest).Nodup := by
      unfold JsMap.keys at hcnodup ⊢
      rw [List.map_cons, List.nodup_cons] at hcnodup
      exact hcnodup.2
    have hc0notin : ¬ c0.1 ∈ JsMap.keys rest := by
      unfold JsMap.keys at hcnodup ⊢
      rw [List.map_cons, List.nodup_cons] at hcnodup
      exact hcnodup.1
    have hcons' : ∀ pc ∈ rest,
        pc.2 = (streamEvents pc.1 (evictStream evs c0)).length := by
      intro pc hpc
      have hne : pc.1 ≠ c0.1 := by
        intro h
        exact hc0notin (h ▸ List.mem_map.mpr ⟨pc, hpc, rfl⟩)
      rw [streamEvents_evictStream_ne evs c0 pc.1 hnodup hne]
      exact hcons pc (List.mem_cons_of_mem _ hpc)
    rw [ih (evictStream evs c0) hnodup' hcnodup' hcons' t]
    by_cases ht : t = c0.1
    · subst ht
      rw [if_neg hc0notin,
        streamEvents_evictStream_self evs c0 (hcons c0 (List.mem_cons_self _ _))]
      have hmem : c0.1 ∈ JsMap.keys (c0 :: rest) := by
        unfold JsMap.keys
        rw [List.map_cons]
        exact List.mem_cons_self _ _
      rw [if_pos hmem]
    · rw [streamEvents_evictStream_ne evs c0 t hnodup ht]
      have hmemiff : (t ∈ JsMap.keys (c0 :: rest)) ↔ t ∈ JsMap.keys rest := by
        unfold JsMap.keys
        rw [List.map_cons, List.mem_cons]
        exact ⟨fun h => h.resolve_left ht, Or.inr⟩
      by_cases htr : t ∈ JsMap.keys rest
      · rw [if_pos htr, if_pos (hmemiff.mpr htr)]
      · rw [if_neg htr, if_neg (fun h => htr (hmemiff.mp h))]

/-- After cleanupOldEvents, every stream holds capStream of its live
entries. -/
theorem streamEvents_cleanup {α : Type} (st : InMemoryEventStore α)
    (now : Nat) (hnodup : JsMap.NodupKeys st.events) (t : Str) :
    streamEvents t (cleanupOldEvents st now).events =
      capStream (streamEvents t (liveEvents st.events now)) := by
  unfold cleanupOldEvents
  have hlive : JsMap.NodupKeys (liveEvents st.events now) :=
    nodupKeys_filter _ _ hnodup
  have hspec := foldl_evictStream_spec (streamCounts (liveEvents st.events now))
    (liveEvents st.events now) hlive (nodup_keys_streamCounts _)
    (fun pc hpc => by
      obtain ⟨a, b⟩ := pc
      exact streamCounts_val _ a b hpc) t
  rw [hspec]
  by_cases hmem : t ∈ JsMap.keys (streamCounts (liveEvents st.events now))
  · rw [if_pos hmem]
  · rw [if_neg hmem]
    have hemp : streamEvents t (liveEvents st.events now) = [] := by
      by_contra hne
      exact hmem ((mem_keys_streamCounts _ t).mpr hne)
    rw [hemp]
    unfold capStream
    rw [if_neg (by simp [maxEventsPerStream])]

end InMemoryEventStore

/-- C2 amended: after a storeEvent call on a map with distinct keys and a
fresh generated id, (a) every stream retains at most the cap's worth (1000)
of events; (b) a stream whose live (within-retention-window) entries
exceed the cap retains exactly the cap's worth of them, and every evicted
entry is at least as old (by timestamp, ties resolved by the stable sort)
as every retained one; (c) a stream other than the stored one that is
within the cap retains exactly its within-window events: its unexpired
events are unaffected, while its events older than the retention window
are removed by the same call. -/
theorem C2_eviction_cap {α : Type} (st : InMemoryEventStore α) (s : Str) (msg : α)
    (now : Nat) (rand : Str)
    (hnodup : JsMap.NodupKeys st.events)
    (hfresh : ∀ p ∈ st.events, p.1 ≠ generateEventId s now rand) :
    (∀ t, (streamEvents t ((storeEvent st s msg now rand).2).events).length
        ≤ maxEventsPerStream)
  ∧ (∀ t, (streamEvents t (liveEvents (postInsert st s msg now rand) now)).length
        > maxEventsPerStream →
      (streamEvents t ((storeEvent st s msg now rand).2).events).length
        = maxEventsPerStream
      ∧ (∀ p ∈ streamEvents t ((storeEvent st s msg now rand).2).events,
          p ∈ streamEvents t (liveEvents (postInsert st s msg now rand) now))
      ∧ (∀ q ∈ streamEvents t (liveEvents (postInsert st s msg now rand) now),
          q ∉ streamEvents t ((storeEvent st s msg now rand).2).events →
          ∀ p ∈ streamEvents t ((storeEvent st s msg now rand).2).events,
            q.2.timestamp ≤ p.2.timestamp))
  ∧ (∀ t, t ≠ s →
      (streamEvents t (liveEvents st.events now)).length ≤ maxEventsPerStream →
      streamEvents t ((storeEvent st s msg now rand).2).events =
        liveEvents (streamEvents t st.events) now) := by
  have hpost : postInsert st s msg now rand =
      st.events ++ [(generateEventId s now rand, ⟨s, msg, now⟩)] :=
    JsMap.set_of_fresh _ _ _ hfresh
  have hpostnodup : JsMap.NodupKeys (postInsert st s msg now rand) := by
    rw [hpost]
    unfold JsMap.NodupKeys JsMap.keys
    rw [List.map_append, List.nodup_append]
    refine ⟨hnodup, by simp, ?_⟩
    intro x hx hx2
    rw [List.mem_map] at hx
    obtain ⟨p, hp, hpx⟩ := hx
    simp only [List.map_cons, List.map_nil, List.mem_singleton] at hx2
    exact hfresh p hp (hpx.trans hx2)
  have hstore : ((storeEvent st s msg now rand).2).events =
      (cleanupOldEvents ⟨postInsert st s msg now rand⟩ now).events := rfl
  have hclean : ∀ t, streamEvents t ((storeEvent st s msg now rand).2).events =
      capStream (streamEvents t (liveEvents (postInsert st s msg now rand) now)) := by
    intro t
    rw [hstore]
    exact streamEvents_cleanup ⟨postInsert st s msg now rand⟩ now hpostnodup t
  have hnt : ∀ t, JsMap.NodupKeys
      (streamEvents t (liveEvents (postInsert st s msg now rand) now)) :=
    fun t => nodupKeys_filter _ _ (nodupKeys_filter _ _ hpostnodup)
  refine ⟨?_, ?_, ?_⟩
  · intro t
    rw [hclean t]
    by_cases hgt : (streamEvents t (liveEvents (postInsert st s msg now rand)
        now)).length > maxEventsPerStream
    · rw [(capStream_spec _ (hnt t) hgt).1]
    · rw [capStream_of_le _ (by omega)]
      omega
  · intro t hgt
    obtain ⟨h1, h2, h3⟩ := capStream_spec _ (hnt t) hgt
    refine ⟨by rw [hclean t]; exact h1, ?_, ?_⟩
    · intro p hp
      rw [hclean t] at hp
      exact h2 p hp
    · intro q hq hqn p hp
      rw [hclean t] at hqn hp
      exact h3 q hq hqn p hp
  · intro t hts hle
    rw [hclean t]
    have hpe : streamEvents t (postInsert st s msg now rand) =
        streamEvents t st.events := by
      rw [hpost]
      unfold streamEvents
      rw [List.filter_append]
      have hnil : List.filter (fun p => decide (p.2.streamId = t))
          [(generateEventId s now rand, (⟨s, msg, now⟩ : Event α))] = [] := by
        simp only [List.filter_cons, List.filter_nil, decide_eq_true_eq]
        rw [if_neg (by simpa using fun h => hts h.symm)]
      rw [hnil, List.append_nil]
    have hcomm : ∀ (l : List (Str × Event α)),
        streamEvents t (liveEvents l now) = liveEvents (streamEvents t l) now := by
      intro l
      unfold liveEvents
      exact streamEvents_filter_comm t l _
    rw [hcomm, hpe, ← hcomm]
    exact capStream_of_le _ (by rw [hcomm] at *; omega)

/-- C2 counterexample: bigStore holds 1000 live events of stream "a" and
one hour-old event of stream "b"; a storeEvent to stream "a" at time
3600005 pushes stream "a" past the cap (1001 live events) yet also removes
stream "b"'s event, so events of other streams are not unaffected. -/
theorem C2_counterexample :
    bigStoreBEvent ∈ bigStore.events
    ∧ (streamEvents "a".toList
        (liveEvents (postInsert bigStore "a".toList 7 3600005 "r".toList) 3600005)).length
        = 1001
    ∧ bigStoreBEvent ∉
        ((storeEvent bigStore "a".toList 7 3600005 "r".toList).2).events := by
  have hfresh : ∀ p ∈ bigStore.events,
      p.1 ≠ generateEventId "a".toList 3600005 "r".toList := by
    intro p hp
    rcases List.mem_cons.mp hp with rfl | hp'
    · exact (by decide :
        ¬ (bigStoreBEvent.1 = generateEventId "a".toList 3600005 "r".toList))
    · rw [List.mem_map] at hp'
      obtain ⟨i, hi, rfl⟩ := hp'
      intro h
      have h10 := congrArg (fun l => List.take 10 l) h
      simp only [bigStoreAId] at h10
      rw [List.take_left' (by decide)] at h10
      exact absurd h10 (by decide)
  have hpost : postInsert bigStore "a".toList 7 3600005 "r".toList =
      bigStore.events ++ [(generateEventId "a".toList 3600005 "r".toList,
        ⟨"a".toList, 7, 3600005⟩)] :=
    JsMap.set_of_fresh _ _ _ hfresh
  refine ⟨List.mem_cons_self _ _, ?_, ?_⟩
  · unfold streamEvents liveEvents
    rw [hpost]
    show (List.filter _ (List.filter _ ((bigStoreBEvent ::
      (List.range 1000).map (fun i => (bigStoreAId i, ⟨"a".toList, i, 3600000⟩))) ++
      [(generateEventId "a".toList 3600005 "r".toList, ⟨"a".toList, 7, 3600005⟩)]))).length
      = 1001
    rw [List.filter_append, List.filter_cons,
      if_neg (by decide :
        ¬ (decide (3600005 - bigStoreBEvent.2.timestamp ≤ maxAge) = true))]
    rw [show List.filter (fun p => decide (3600005 - p.2.timestamp ≤ maxAge))
        ((List.range 1000).map
          (fun i => (bigStoreAId i, (⟨"a".toList, i, 3600000⟩ : Event Nat)))) =
        (List.range 1000).map
          (fun i => (bigStoreAId i, (⟨"a".toList, i, 3600000⟩ : Event Nat)))
      from List.filter_eq_self.mpr (fun p hp => by
        rw [List.mem_map] at hp
        obtain ⟨i, _, rfl⟩ := hp
        dsimp only
        decide)]
    rw [show List.filter (fun p => decide (3600005 - p.2.timestamp ≤ maxAge))
        [(generateEventId "a".toList 3600005 "r".toList,
          (⟨"a".toList, 7, 3600005⟩ : Event Nat))] =
        [(generateEventId "a".toList 3600005 "r".toList, ⟨"a".toList, 7, 3600005⟩)]
      from by simp [maxAge]]
    rw [List.filter_append]
    rw [show List.filter (fun p => decide (p.2.streamId = "a".toList))
        ((List.range 1000).map
          (fun i => (bigStoreAId i, (⟨"a".toList, i, 3600000⟩ : Event Nat)))) =
        (List.range 1000).map
          (fun i => (bigStoreAId i, (⟨"a".toList, i, 3600000⟩ : Event Nat)))
      from List.filter_eq_self.mpr (fun p hp => by
        rw [List.mem_map] at hp
        obtain ⟨i, _, rfl⟩ := hp
        dsimp only
        decide)]
    rw [show List.filter (fun p => decide (p.2.streamId = "a".toList))
        [(generateEventId "a".toList 3600005 "r".toList,
          (⟨"a".toList, 7, 3600005⟩ : Event Nat))] =
        [(generateEventId "a".toList 3600005 "r".toList, ⟨"a".toList, 7, 3600005⟩)]
      from by simp]
    simp
  · intro hmem
    have h2 := (mem_cleanup_live
      (⟨postInsert bigStore "a".toList 7 3600005 "r".toList⟩ : InMemoryEventStore Nat)
      3600005 bigStoreBEvent hmem).2
    have h3 : (3600005 : Nat) - 0 ≤ maxAge := by
      simpa [bigStoreBEvent] using h2
    simp [maxAge] at h3


/-- Witness for C2 on a small store: one fresh event in stream "a" joins an
existing entry; the hypotheses (distinct keys, fresh id) hold and the
conclusions follow. -/
theorem C2_eviction_cap_witness :
    (∀ t, (streamEvents t ((storeEvent
        (⟨[("p".toList, ⟨"b".toList, 1, 50⟩)]⟩ : InMemoryEventStore Nat)
        "a".toList 7 60 "q".toList).2).events).length ≤ maxEventsPerStream)
    ∧ (∀ t, t ≠ "a".toList →
        (streamEvents t (liveEvents
          (⟨[("p".toList, ⟨"b".toList, 1, 50⟩)]⟩ : InMemoryEventStore Nat).events
          60)).length ≤ maxEventsPerStream →
        streamEvents t ((storeEvent
          (⟨[("p".toList, ⟨"b".toList, 1, 50⟩)]⟩ : InMemoryEventStore Nat)
          "a".toList 7 60 "q".toList).2).events =
          liveEvents (streamEvents t
            (⟨[("p".toList, ⟨"b".toList, 1, 50⟩)]⟩ : InMemoryEventStore Nat).events) 60) :=
  ⟨(C2_eviction_cap ⟨[("p".toList, ⟨"b".toList, 1, 50⟩)]⟩ "a".toList 7 60 "q".toList
      (by unfold JsMap.NodupKeys JsMap.keys; decide) (by decide)).1,
    (C2_eviction_cap ⟨[("p".toList, ⟨"b".toList, 1, 50⟩)]⟩ "a".toList 7 60 "q".toList
      (by unfold JsMap.NodupKeys JsMap.keys; decide) (by decide)).2.2⟩
